import Mathlib

/-!
Shallow embedding of the `upload-to-codegpt-agent` synchronizer
(`src/main.rs`) and proofs about it.

The program scans configured directories for files with accepted
extensions, keeps an in-memory map from path to `FileInfo`
(`last_check: HashMap<String, FileInfo>`), and for every dirty file
performs two remote HTTP calls (content upload, then plug create/update),
recording the returned plug id in the map.  The embedding models
timestamps as `Nat`, the tracker map as an association list, and the
remote service as an oracle answering each call (indexed by a global call
counter, so the environment may answer differently at different times).
-/

/-- `FileInfo` from `src/main.rs`: per-path tracker record. -/
structure FileInfo where
  last_modified : Nat
  plug_id : Option String
deriving DecidableEq, Repr

/-- The tracker map `last_check : HashMap<String, FileInfo>`, modelled as an
association list with at most one binding per key. -/
def Tracker := List (String × FileInfo)

instance : DecidableEq Tracker := by
  unfold Tracker
  infer_instance

/-- `HashMap` lookup (`last_check.get` / `contains_key` / indexing). -/
def trLookup : Tracker → String → Option FileInfo
  | [], _ => none
  | (k, v) :: rest, p => if k = p then some v else trLookup rest p

/-- `HashMap::insert`: replaces the binding for the key if present,
otherwise appends a new binding. -/
def trInsert : Tracker → String → FileInfo → Tracker
  | [], p, i => [(p, i)]
  | (k, v) :: rest, p, i =>
      if k = p then (p, i) :: rest else (k, v) :: trInsert rest p i

/-- The dirtiness test of `upload_modified_files` (line 137):
`!last_check.contains_key(&filename) || last_check[&filename].last_modified < modified`. -/
def isDirty (tr : Tracker) (path : String) (modified : Nat) : Bool :=
  match trLookup tr path with
  | none => true
  | some info => info.last_modified < modified

/-- The `plug_id` recorded for a path, if any
(`last_check.get(&filename).and_then(|info| info.plug_id.clone())`). -/
def refOf (tr : Tracker) (path : String) : Option String :=
  (trLookup tr path).bind (fun info => info.plug_id)

/-- One outbound HTTP request made by `upload_and_plug_file`. -/
inductive RemoteCall where
  /-- `POST {base}/agents/files` with body `{name, content}`. -/
  | uploadFile (name : String) (content : String)
  /-- `POST {base}/agents/plugs` with body `{name, file_id}` (create). -/
  | createPlug (name : String) (file_id : String)
  /-- `PUT {base}/agents/plugs/{plug}` with body `{file_id}` (update). -/
  | updatePlug (plug : String) (file_id : String)
deriving DecidableEq, Repr

/-- How the environment answers one HTTP request, as far as the program can
observe it: `send().await` may fail, parsing the body as JSON
(`.json::<serde_json::Value>().await`) may fail, or a JSON body is
obtained, carrying the HTTP status and the body's `"id"` field as a string
when the field is present and a string. -/
inductive CallResult where
  | sendErr
  | bodyErr
  | ok (status : Nat) (idField : Option String)
deriving DecidableEq, Repr

/-- The remote environment: answers the `n`-th call of the process. -/
def Oracle := Nat → RemoteCall → CallResult

/-- The error kinds the embedded functions propagate with `?`. -/
inductive SyncError where
  /-- `scan_directory` failed (an `std::io::Error` from `read_dir`). -/
  | scanErr
  /-- `fs::metadata`, `metadata.modified()` or `fs::read_to_string` failed. -/
  | ioErr
  /-- A `reqwest` error: `send()` or body-read/JSON-parse failed. -/
  | remoteErr
deriving DecidableEq, Repr

/-- Outcome of `upload_and_plug_file`: a returned plug id, a propagated
error, or a process panic (the `.unwrap()` on a missing `"id"` field). -/
inductive UpOut where
  | ok (id : String)
  | err (e : SyncError)
  | panic
deriving DecidableEq, Repr

/-- `upload_and_plug_file` (lines 63-115 of `src/main.rs`).  Performs the
content upload; on a parsed body it takes `["id"].as_str().unwrap()`
(panicking when absent); then performs the plug call: a `PUT` to the
existing plug when `plug_id` is `some`, otherwise a create `POST`; and
extracts the plug id the same way.  The HTTP status is only printed, never
inspected.  Returns the outcome, the next call counter, and the calls
made, in order. -/
def upload_and_plug_file (oracle : Oracle) (n : Nat)
    (filename content : String) (plug_id : Option String) :
    UpOut × Nat × List RemoteCall :=
  let c1 := RemoteCall.uploadFile filename content
  match oracle n c1 with
  | .sendErr => (.err .remoteErr, n + 1, [c1])
  | .bodyErr => (.err .remoteErr, n + 1, [c1])
  | .ok _ none => (.panic, n + 1, [c1])
  | .ok _ (some file_id) =>
      let c2 := match plug_id with
        | some existing => RemoteCall.updatePlug existing file_id
        | none => RemoteCall.createPlug filename file_id
      match oracle (n + 1) c2 with
      | .sendErr => (.err .remoteErr, n + 2, [c1, c2])
      | .bodyErr => (.err .remoteErr, n + 2, [c1, c2])
      | .ok _ none => (.panic, n + 2, [c1, c2])
      | .ok _ (some pid) => (.ok pid, n + 2, [c1, c2])

/-- A scanned file as the orchestrator finds it when it reaches it:
its path string, its modification time if `fs::metadata(..)?.modified()?`
succeeds, and its text content if `fs::read_to_string` succeeds. -/
structure FsFile where
  path : String
  meta : Option Nat
  content : Option String
deriving DecidableEq, Repr

/-- Result of one cycle (`upload_modified_files`): `Ok(())`, a propagated
error, or a panic. -/
inductive CycleResult where
  | ok
  | err (e : SyncError)
  | panic
deriving DecidableEq, Repr

/-- The body of the per-file loop of `upload_modified_files`
(lines 136-159): read metadata (`?` on failure), test dirtiness; when
dirty, read the content (`?` on failure), call `upload_and_plug_file`
reusing any recorded `plug_id`, and on success insert the new record with
the modification time and the returned plug id together.  Returns the
loop-iteration outcome, the tracker, the call counter and the calls
emitted for this file. -/
def processFile (oracle : Oracle) (tr : Tracker) (n : Nat) (f : FsFile) :
    CycleResult × Tracker × Nat × List RemoteCall :=
  match f.meta with
  | none => (.err .ioErr, tr, n, [])
  | some modified =>
      if isDirty tr f.path modified then
        match f.content with
        | none => (.err .ioErr, tr, n, [])
        | some content =>
            match upload_and_plug_file oracle n f.path content
                (refOf tr f.path) with
            | (.ok pid, n2, cs) =>
                (.ok, trInsert tr f.path ⟨modified, some pid⟩, n2, cs)
            | (.err e, n2, cs) => (.err e, tr, n2, cs)
            | (.panic, n2, cs) => (.panic, tr, n2, cs)
      else (.ok, tr, n, [])

/-- The `for path in files` loop of `upload_modified_files`: each `?`
inside an iteration aborts the whole function, so the first failing file
ends the loop. -/
def runFiles (oracle : Oracle) :
    List FsFile → Tracker → Nat →
    CycleResult × Tracker × Nat × List RemoteCall
  | [], tr, n => (.ok, tr, n, [])
  | f :: rest, tr, n =>
      match processFile oracle tr n f with
      | (.ok, tr2, n2, cs) =>
          match runFiles oracle rest tr2 n2 with
          | (r, tr3, n3, cs2) => (r, tr3, n3, cs ++ cs2)
      | (.err e, tr2, n2, cs) => (.err e, tr2, n2, cs)
      | (.panic, tr2, n2, cs) => (.panic, tr2, n2, cs)

/-- `upload_modified_files` (lines 117-162): the scan step
(`scan_directory(..)?` over the configured roots) either fails, aborting
the cycle, or yields the candidate file list, after which the per-file
loop runs.  The scan outcome and the filesystem snapshot are the cycle's
input. -/
def upload_modified_files (oracle : Oracle)
    (scan : Except SyncError (List FsFile)) (tr : Tracker) (n : Nat) :
    CycleResult × Tracker × Nat × List RemoteCall :=
  match scan with
  | .error e => (.err e, tr, n, [])
  | .ok files => runFiles oracle files tr n

/-- The sleep the `main` loop performs after a cycle
(lines 172-192): `Duration::from_secs(60)` on `Ok`,
`Duration::from_secs(10)` on `Err`; a panic never reaches the sleep. -/
def sleepAfterCycle : CycleResult → Option Nat
  | .ok => some 60
  | .err _ => some 10
  | .panic => none

/-- The `loop` in `main`, run for a finite list of cycle inputs, starting
from a tracker and call counter.  Returns the final tracker, counter, the
concatenated call log, and the per-cycle results (cut short if a cycle
panics, since a panic aborts the process). -/
def runCycles (oracle : Oracle) :
    List (Except SyncError (List FsFile)) → Tracker → Nat →
    Tracker × Nat × List RemoteCall × List CycleResult
  | [], tr, n => (tr, n, [], [])
  | inp :: rest, tr, n =>
      match upload_modified_files oracle inp tr n with
      | (.panic, tr2, n2, cs) => (tr2, n2, cs, [.panic])
      | (r, tr2, n2, cs) =>
          match runCycles oracle rest tr2 n2 with
          | (tr3, n3, cs2, rs) => (tr3, n3, cs ++ cs2, r :: rs)

/-- The characters after the last `.` of a file name's character list, or
`none` when there is no `.` at all. -/
def afterLastDot : List Char → Option (List Char)
  | [] => none
  | c :: cs =>
      match afterLastDot cs with
      | some e => some e
      | none => if c = '.' then some cs else none

/-- `Path::extension().and_then(|e| e.to_str())` applied to a file name:
the portion after the final `.`, except that a name starting with `.` and
containing no further `.` has no extension (the leading dot belongs to the
stem).  Modelled for Unicode names; a name whose extension bytes are not
valid UTF-8 also yields `none` through the `to_str` step. -/
def rustExtension (name : String) : Option String :=
  match name.toList with
  | [] => none
  | _ :: cs => (afterLastDot cs).map (fun e => String.mk e)

/-- `is_source_file` (lines 38-43 of `src/main.rs`), applied to the file
name component of the path, which is what `Path::extension` examines:
`path.extension().and_then(to_str).map(|ext| file_types.contains(ext)).unwrap_or(false)`. -/
def is_source_file (name : String) (file_types : List String) : Bool :=
  ((rustExtension name).map (fun ext => file_types.contains ext)).getD false

mutual
/-- A directory-tree entry: a plain file or a directory with contents. -/
inductive Entry where
  | file (name : String)
  | dir (name : String) (sub : EntryList)
/-- The contents of a directory. -/
inductive EntryList where
  | nil
  | cons (e : Entry) (rest : EntryList)
end

mutual
/-- The body of `scan_directory`'s `for entry in fs::read_dir(dir)?` for
one entry found inside a directory: directories are recursed into,
non-directories are pushed exactly when `is_source_file` accepts them.
`dirPath` is the path of the containing directory (with a trailing
separator), so the pushed path is `dirPath ++ name`. -/
def scanEntry (types : List String) (dirPath : String) : Entry → List String
  | .file name => if is_source_file name types then [dirPath ++ name] else []
  | .dir name sub => scanList types (dirPath ++ name ++ "/") sub
/-- The `for` loop of `scan_directory` over a directory's entries, in
order, accumulating into the shared `files` vector. -/
def scanList (types : List String) (dirPath : String) : EntryList → List String
  | .nil => []
  | .cons e rest => scanEntry types dirPath e ++ scanList types dirPath rest
end

/-- `scan_directory` (lines 45-62 of `src/main.rs`) on a root: a root that
is not a directory contributes nothing (`if dir.is_dir()` is false), a
directory root has its contents scanned. -/
def scan_directory (types : List String) : Entry → List String
  | .file _ => []
  | .dir name sub => scanList types (name ++ "/") sub

/-- The loop over configured roots in `upload_modified_files`
(lines 130-134), accumulating all scan results into one vector. -/
def scan_roots (types : List String) (roots : List Entry) : List String :=
  roots.flatMap (scan_directory types)

mutual
/-- Specification-side description: every file reachable by recursive
descent from an entry inside a directory, with no extension filtering;
each file is reported as its full path paired with its name component. -/
def filesEntry (dirPath : String) : Entry → List (String × String)
  | .file name => [(dirPath ++ name, name)]
  | .dir name sub => filesList (dirPath ++ name ++ "/") sub
/-- All reachable files under a list of entries. -/
def filesList (dirPath : String) : EntryList → List (String × String)
  | .nil => []
  | .cons e rest => filesEntry dirPath e ++ filesList dirPath rest
end

/-- All files reachable by recursive descent from a root, per the
specification's contract (a non-directory root yields nothing). -/
def filesRoot : Entry → List (String × String)
  | .file _ => []
  | .dir name sub => filesList (name ++ "/") sub

/-- `true` when the call is addressed by file name to the given path
(content uploads and plug creates carry the name; plug updates are
addressed by plug id instead). -/
def namesPath (p : String) : RemoteCall → Bool
  | .uploadFile name _ => name == p
  | .createPlug name _ => name == p
  | .updatePlug _ _ => false

/-- `true` when the call is a plug-create for the given path. -/
def isCreateFor (p : String) : RemoteCall → Bool
  | .createPlug name _ => name == p
  | _ => false

/-- A remote environment whose `PUT {base}/agents/plugs/{q}` responses,
when they carry an `id` at all, echo the targeted plug id `q` — what the
protocol prescribes for updates. -/
def EchoesPut (oracle : Oracle) : Prop :=
  ∀ n q fid s i, oracle n (RemoteCall.updatePlug q fid) = .ok s i →
    i = none ∨ i = some q

/-- Every record in the tracker carries a plug id. -/
def InvSome (tr : Tracker) : Prop :=
  ∀ p i, trLookup tr p = some i → i.plug_id.isSome

theorem trLookup_trInsert (tr : Tracker) (p q : String) (i : FileInfo) :
    trLookup (trInsert tr p i) q = if p = q then some i else trLookup tr q := by
  induction tr with
  | nil =>
      simp only [trInsert, trLookup]
  | cons kv rest ih =>
      obtain ⟨k, v⟩ := kv
      by_cases hkp : k = p
      · subst hkp
        simp only [trInsert, if_pos rfl, trLookup]
        by_cases hkq : k = q
        · simp [hkq]
        · simp [hkq]
      · simp only [trInsert, if_neg hkp, trLookup, ih]
        by_cases hkq : k = q
        · subst hkq
          simp only [if_pos rfl]
          have : ¬ p = k := fun h => hkp h.symm
          simp only [if_neg this]
        · simp only [if_neg hkq]

theorem trLookup_trInsert_self (tr : Tracker) (p : String) (i : FileInfo) :
    trLookup (trInsert tr p i) p = some i := by
  simp [trLookup_trInsert]

theorem trLookup_trInsert_ne (tr : Tracker) (p q : String) (i : FileInfo)
    (h : p ≠ q) : trLookup (trInsert tr p i) q = trLookup tr q := by
  simp [trLookup_trInsert, h]

theorem refOf_trInsert_ne (tr : Tracker) (p q : String) (i : FileInfo)
    (h : p ≠ q) : refOf (trInsert tr p i) q = refOf tr q := by
  simp [refOf, trLookup_trInsert_ne tr p q i h]


theorem upload_ok_elim_some (oracle : Oracle) (n : Nat) (fn c r pid : String)
    (n2 : Nat) (cs : List RemoteCall)
    (h : upload_and_plug_file oracle n fn c (some r) = (.ok pid, n2, cs)) :
    ∃ s1 fid s2,
      oracle n (RemoteCall.uploadFile fn c) = .ok s1 (some fid) ∧
      oracle (n + 1) (RemoteCall.updatePlug r fid) = .ok s2 (some pid) ∧
      n2 = n + 2 ∧
      cs = [RemoteCall.uploadFile fn c, RemoteCall.updatePlug r fid] := by
  simp only [upload_and_plug_file] at h
  split at h
  · simp at h
  · simp at h
  · simp at h
  · rename_i s1 fid ho
    split at h
    · simp at h
    · simp at h
    · simp at h
    · rename_i s2 pid2 ho2
      simp only [Prod.mk.injEq, UpOut.ok.injEq] at h
      obtain ⟨h1, h2, h3⟩ := h
      subst h1
      subst h2
      subst h3
      exact ⟨s1, fid, s2, ho, ho2, rfl, rfl⟩

theorem upload_ok_elim_none (oracle : Oracle) (n : Nat) (fn c pid : String)
    (n2 : Nat) (cs : List RemoteCall)
    (h : upload_and_plug_file oracle n fn c none = (.ok pid, n2, cs)) :
    ∃ s1 fid s2,
      oracle n (RemoteCall.uploadFile fn c) = .ok s1 (some fid) ∧
      oracle (n + 1) (RemoteCall.createPlug fn fid) = .ok s2 (some pid) ∧
      n2 = n + 2 ∧
      cs = [RemoteCall.uploadFile fn c, RemoteCall.createPlug fn fid] := by
  simp only [upload_and_plug_file] at h
  split at h
  · simp at h
  · simp at h
  · simp at h
  · rename_i s1 fid ho
    split at h
    · simp at h
    · simp at h
    · simp at h
    · rename_i s2 pid2 ho2
      simp only [Prod.mk.injEq, UpOut.ok.injEq] at h
      obtain ⟨h1, h2, h3⟩ := h
      subst h1
      subst h2
      subst h3
      exact ⟨s1, fid, s2, ho, ho2, rfl, rfl⟩

theorem upload_err_kind (oracle : Oracle) (n : Nat) (fn c : String)
    (pl : Option String) (e : SyncError) (n2 : Nat) (cs : List RemoteCall)
    (h : upload_and_plug_file oracle n fn c pl = (.err e, n2, cs)) :
    e = .remoteErr := by
  simp only [upload_and_plug_file] at h
  split at h
  · simp only [Prod.mk.injEq, UpOut.err.injEq] at h
    exact h.1.symm
  · simp only [Prod.mk.injEq, UpOut.err.injEq] at h
    exact h.1.symm
  · simp at h
  · split at h
    · simp only [Prod.mk.injEq, UpOut.err.injEq] at h
      exact h.1.symm
    · simp only [Prod.mk.injEq, UpOut.err.injEq] at h
      exact h.1.symm
    · simp at h
    · simp at h

theorem upload_calls_mem (oracle : Oracle) (n : Nat) (fn c : String)
    (pl : Option String) :
    ∀ call ∈ (upload_and_plug_file oracle n fn c pl).2.2,
      call = RemoteCall.uploadFile fn c ∨
      (∃ fid, pl = none ∧ call = RemoteCall.createPlug fn fid) ∨
      (∃ r fid, pl = some r ∧ call = RemoteCall.updatePlug r fid) := by
  intro call hc
  rcases pl with _ | r <;> simp only [upload_and_plug_file] at hc
  · split at hc
    · simp at hc
      exact Or.inl hc
    · simp at hc
      exact Or.inl hc
    · simp at hc
      exact Or.inl hc
    · rename_i s1 fid ho
      split at hc <;> simp at hc <;> rcases hc with hc | hc
      all_goals first
        | exact Or.inl hc
        | exact Or.inr (Or.inl ⟨fid, rfl, hc⟩)
  · split at hc
    · simp at hc
      exact Or.inl hc
    · simp at hc
      exact Or.inl hc
    · simp at hc
      exact Or.inl hc
    · rename_i s1 fid ho
      split at hc <;> simp at hc <;> rcases hc with hc | hc
      all_goals first
        | exact Or.inl hc
        | exact Or.inr (Or.inr ⟨r, fid, rfl, hc⟩)

theorem upload_calls_head (oracle : Oracle) (n : Nat) (fn c : String)
    (pl : Option String) :
    ∃ tl, (upload_and_plug_file oracle n fn c pl).2.2 =
      RemoteCall.uploadFile fn c :: tl := by
  simp only [upload_and_plug_file]
  split
  · exact ⟨[], rfl⟩
  · exact ⟨[], rfl⟩
  · exact ⟨[], rfl⟩
  · split <;> exact ⟨[_], rfl⟩

theorem processFile_not_ok_tracker (oracle : Oracle) (tr : Tracker) (n : Nat)
    (f : FsFile) (r : CycleResult) (tr' : Tracker) (n' : Nat)
    (cs : List RemoteCall)
    (h : processFile oracle tr n f = (r, tr', n', cs)) (hr : r ≠ .ok) :
    tr' = tr := by
  simp only [processFile] at h
  split at h
  · simp only [Prod.mk.injEq] at h
    exact h.2.1.symm
  · split at h
    · split at h
      · simp only [Prod.mk.injEq] at h
        exact h.2.1.symm
      · split at h
        · simp only [Prod.mk.injEq] at h
          exact absurd h.1.symm hr
        · simp only [Prod.mk.injEq] at h
          exact h.2.1.symm
        · simp only [Prod.mk.injEq] at h
          exact h.2.1.symm
    · simp only [Prod.mk.injEq] at h
      exact h.2.1.symm

theorem processFile_ok_elim (oracle : Oracle) (tr : Tracker) (n : Nat)
    (f : FsFile) (tr' : Tracker) (n' : Nat) (cs : List RemoteCall)
    (h : processFile oracle tr n f = (.ok, tr', n', cs)) :
    (tr' = tr ∧ n' = n ∧ cs = [] ∧
      ∃ m, f.meta = some m ∧ isDirty tr f.path m = false) ∨
    (∃ m c pid, f.meta = some m ∧ isDirty tr f.path m = true ∧
      f.content = some c ∧
      upload_and_plug_file oracle n f.path c (refOf tr f.path) =
        (.ok pid, n', cs) ∧
      tr' = trInsert tr f.path ⟨m, some pid⟩) := by
  simp only [processFile] at h
  split at h
  · simp at h
  · rename_i m hm
    split at h
    · rename_i hdirty
      split at h
      · simp at h
      · rename_i c hc
        split at h
        · rename_i pid n2 cs2 hu
          simp only [Prod.mk.injEq] at h
          refine Or.inr ⟨m, c, pid, hm, by simpa using hdirty, hc, ?_, h.2.1.symm⟩
          rw [h.2.2.1, h.2.2.2] at hu
          exact hu
        · simp at h
        · simp at h
    · rename_i hdirty
      simp only [Prod.mk.injEq] at h
      exact Or.inl ⟨h.2.1.symm, h.2.2.1.symm, h.2.2.2.symm, m, hm,
        by simpa using hdirty⟩

theorem processFile_clean (oracle : Oracle) (tr : Tracker) (n : Nat)
    (f : FsFile) (m : Nat) (hm : f.meta = some m)
    (hd : isDirty tr f.path m = false) :
    processFile oracle tr n f = (.ok, tr, n, []) := by
  simp [processFile, hm, hd]

theorem processFile_calls_eq (oracle : Oracle) (tr : Tracker) (n : Nat)
    (f : FsFile) :
    (processFile oracle tr n f).2.2.2 = [] ∨
    ∃ c, f.content = some c ∧
      (processFile oracle tr n f).2.2.2 =
        (upload_and_plug_file oracle n f.path c (refOf tr f.path)).2.2 := by
  simp only [processFile]
  split
  · simp
  · rename_i m hm
    split
    · split
      · simp
      · rename_i c hc
        split
        · rename_i pid n2 cs2 hu
          exact Or.inr ⟨c, hc, by rw [hu]⟩
        · rename_i e n2 cs2 hu
          exact Or.inr ⟨c, hc, by rw [hu]⟩
        · rename_i n2 cs2 hu
          exact Or.inr ⟨c, hc, by rw [hu]⟩
    · simp

theorem runFiles_append_ok (oracle : Oracle) (xs ys : List FsFile)
    (tr : Tracker) (n : Nat) (tr1 : Tracker) (n1 : Nat)
    (cs1 : List RemoteCall) (r : CycleResult) (tr2 : Tracker) (n2 : Nat)
    (cs2 : List RemoteCall)
    (h1 : runFiles oracle xs tr n = (.ok, tr1, n1, cs1))
    (h2 : runFiles oracle ys tr1 n1 = (r, tr2, n2, cs2)) :
    runFiles oracle (xs ++ ys) tr n = (r, tr2, n2, cs1 ++ cs2) := by
  induction xs generalizing tr n cs1 with
  | nil =>
      simp only [runFiles, Prod.mk.injEq] at h1
      obtain ⟨-, ha, hb, hc⟩ := h1
      subst ha
      subst hb
      subst hc
      simpa using h2
  | cons f rest ih =>
      rcases hpf : processFile oracle tr n f with ⟨rp, trp, np, csp⟩
      rcases rp with _ | e | _
      · rcases hr : runFiles oracle rest trp np with ⟨r3, tr3, n3, cs3⟩
        simp only [runFiles, hpf, hr, Prod.mk.injEq] at h1
        obtain ⟨ha, hb, hc, hd⟩ := h1
        subst ha
        subst hb
        subst hc
        subst hd
        have hih := ih trp np cs3 hr
        simp only [List.cons_append, runFiles, hpf, List.append_eq, hih,
          List.append_assoc]
      · simp only [runFiles, hpf, Prod.mk.injEq] at h1
        exact absurd h1.1 (by simp)
      · simp only [runFiles, hpf, Prod.mk.injEq] at h1
        exact absurd h1.1 (by simp)

theorem runFiles_append_halt (oracle : Oracle) (xs ys : List FsFile)
    (tr : Tracker) (n : Nat) (r : CycleResult) (tr1 : Tracker) (n1 : Nat)
    (cs1 : List RemoteCall)
    (h1 : runFiles oracle xs tr n = (r, tr1, n1, cs1)) (hr : r ≠ .ok) :
    runFiles oracle (xs ++ ys) tr n = (r, tr1, n1, cs1) := by
  induction xs generalizing tr n cs1 with
  | nil =>
      simp only [runFiles, Prod.mk.injEq] at h1
      exact absurd h1.1.symm hr
  | cons f rest ih =>
      rcases hpf : processFile oracle tr n f with ⟨rp, trp, np, csp⟩
      rcases rp with _ | e | _
      · rcases hrr : runFiles oracle rest trp np with ⟨r3, tr3, n3, cs3⟩
        simp only [runFiles, hpf, hrr, Prod.mk.injEq] at h1
        obtain ⟨ha, hb, hc, hd⟩ := h1
        subst ha
        subst hb
        subst hc
        subst hd
        have hih := ih trp np cs3 hrr
        simp only [List.cons_append, runFiles, hpf, List.append_eq, hih]
      · simp only [runFiles, hpf, Prod.mk.injEq] at h1
        obtain ⟨ha, hb, hc, hd⟩ := h1
        subst ha
        subst hb
        subst hc
        subst hd
        simp only [List.cons_append, runFiles, hpf]
      · simp only [runFiles, hpf, Prod.mk.injEq] at h1
        obtain ⟨ha, hb, hc, hd⟩ := h1
        subst ha
        subst hb
        subst hc
        subst hd
        simp only [List.cons_append, runFiles, hpf]

theorem runFiles_calls_names (oracle : Oracle) (fs : List FsFile)
    (p : String) (tr : Tracker) (n : Nat)
    (hp : p ∉ fs.map FsFile.path) :
    ∀ call ∈ (runFiles oracle fs tr n).2.2.2, namesPath p call = false := by
  revert hp
  induction fs generalizing tr n with
  | nil =>
      intro hp call hc
      simp [runFiles] at hc
  | cons f rest ih =>
      intro hp
      have hpf2 : p ≠ f.path ∧ p ∉ rest.map FsFile.path := by
        simp only [List.map_cons, List.mem_cons, not_or] at hp
        exact hp
      rcases hpf : processFile oracle tr n f with ⟨rp, trp, np, csp⟩
      have hf : ∀ c ∈ csp, namesPath p c = false := by
        intro c hcc
        rcases processFile_calls_eq oracle tr n f with h0 | ⟨cc, hcon, heq⟩
        · rw [hpf] at h0
          simp only at h0
          rw [h0] at hcc
          simp at hcc
        · rw [hpf] at heq
          simp only at heq
          rw [heq] at hcc
          rcases upload_calls_mem oracle n f.path cc (refOf tr f.path) c hcc
            with h1 | ⟨fid, hpl, h1⟩ | ⟨rr, fid, hpl, h1⟩
          · subst h1
            simp only [namesPath]
            exact beq_eq_false_iff_ne.mpr (fun hh => hpf2.1 hh.symm)
          · subst h1
            simp only [namesPath]
            exact beq_eq_false_iff_ne.mpr (fun hh => hpf2.1 hh.symm)
          · subst h1
            simp only [namesPath]
      rcases rp with _ | e | _
      · rcases hr : runFiles oracle rest trp np with ⟨r3, tr3, n3, cs3⟩
        simp only [runFiles, hpf, hr]
        intro call hc
        rcases List.mem_append.mp hc with h | h
        · exact hf call h
        · have := ih trp np hpf2.2 call
          rw [hr] at this
          exact this h
      · simp only [runFiles, hpf]
        intro call hc
        exact hf call hc
      · simp only [runFiles, hpf]
        intro call hc
        exact hf call hc

theorem isDirty_congr (tr1 tr2 : Tracker) (p : String) (m : Nat)
    (h : trLookup tr1 p = trLookup tr2 p) :
    isDirty tr1 p m = isDirty tr2 p m := by
  simp only [isDirty, h]

theorem processFile_calls_names (oracle : Oracle) (tr : Tracker) (n : Nat)
    (f : FsFile) (p : String) (hne : p ≠ f.path) :
    ∀ call ∈ (processFile oracle tr n f).2.2.2, namesPath p call = false := by
  intro c hcc
  rcases processFile_calls_eq oracle tr n f with h0 | ⟨cc, hcon, heq⟩
  · rw [h0] at hcc
    simp at hcc
  · rw [heq] at hcc
    rcases upload_calls_mem oracle n f.path cc (refOf tr f.path) c hcc
      with h1 | ⟨fid, hpl, h1⟩ | ⟨rr, fid, hpl, h1⟩
    · subst h1
      simp only [namesPath]
      exact beq_eq_false_iff_ne.mpr (fun hh => hne hh.symm)
    · subst h1
      simp only [namesPath]
      exact beq_eq_false_iff_ne.mpr (fun hh => hne hh.symm)
    · subst h1
      simp only [namesPath]

theorem processFile_refOf_mono (oracle : Oracle) (tr : Tracker) (n : Nat)
    (f : FsFile) (p : String) (r : String) (h : refOf tr p = some r) :
    ∃ r2, refOf (processFile oracle tr n f).2.1 p = some r2 := by
  rcases hpf : processFile oracle tr n f with ⟨rp, trp, np, csp⟩
  simp only
  by_cases hok : rp = CycleResult.ok
  · subst hok
    rcases processFile_ok_elim oracle tr n f trp np csp hpf with
      ⟨htr, -, -, -⟩ | ⟨m, c, pid, -, -, -, -, htr⟩
    · subst htr
      exact ⟨r, h⟩
    · subst htr
      by_cases hfp : f.path = p
      · subst hfp
        exact ⟨pid, by simp [refOf, trLookup_trInsert_self]⟩
      · rw [refOf_trInsert_ne tr f.path p _ hfp]
        exact ⟨r, h⟩
  · rw [processFile_not_ok_tracker oracle tr n f rp trp np csp hpf hok]
    exact ⟨r, h⟩

theorem processFile_refOf_echo (oracle : Oracle) (tr : Tracker) (n : Nat)
    (f : FsFile) (p : String) (r : String) (hecho : EchoesPut oracle)
    (h : refOf tr p = some r) :
    refOf (processFile oracle tr n f).2.1 p = some r := by
  rcases hpf : processFile oracle tr n f with ⟨rp, trp, np, csp⟩
  simp only
  by_cases hok : rp = CycleResult.ok
  · subst hok
    rcases processFile_ok_elim oracle tr n f trp np csp hpf with
      ⟨htr, -, -, -⟩ | ⟨m, c, pid, -, -, -, hu, htr⟩
    · subst htr
      exact h
    · subst htr
      by_cases hfp : f.path = p
      · subst hfp
        rw [h] at hu
        obtain ⟨s1, fid, s2, -, ho2, -, -⟩ :=
          upload_ok_elim_some oracle n f.path c r pid np csp hu
        rcases hecho (n + 1) r fid s2 (some pid) ho2 with hnone | hsome
        · exact absurd hnone (by simp)
        · have hpid : pid = r := Option.some.inj hsome
          subst hpid
          simp [refOf, trLookup_trInsert_self]
      · rw [refOf_trInsert_ne tr f.path p _ hfp]
        exact h
  · rw [processFile_not_ok_tracker oracle tr n f rp trp np csp hpf hok]
    exact h

theorem processFile_no_create (oracle : Oracle) (tr : Tracker) (n : Nat)
    (f : FsFile) (p : String) (r : String) (h : refOf tr p = some r) :
    ∀ call ∈ (processFile oracle tr n f).2.2.2, isCreateFor p call = false := by
  intro c hcc
  rcases processFile_calls_eq oracle tr n f with h0 | ⟨cc, hcon, heq⟩
  · rw [h0] at hcc
    simp at hcc
  · rw [heq] at hcc
    rcases upload_calls_mem oracle n f.path cc (refOf tr f.path) c hcc
      with h1 | ⟨fid, hpl, h1⟩ | ⟨rr, fid, hpl, h1⟩
    · subst h1
      simp only [isCreateFor]
    · subst h1
      simp only [isCreateFor]
      by_cases hfp : f.path = p
      · subst hfp
        rw [h] at hpl
        simp at hpl
      · exact beq_eq_false_iff_ne.mpr hfp
    · subst h1
      simp only [isCreateFor]

theorem processFile_update_target (oracle : Oracle) (tr : Tracker) (n : Nat)
    (f : FsFile) :
    ∀ call ∈ (processFile oracle tr n f).2.2.2, ∀ q fid,
      call = RemoteCall.updatePlug q fid → refOf tr f.path = some q := by
  intro c hcc q fid hcall
  rcases processFile_calls_eq oracle tr n f with h0 | ⟨cc, hcon, heq⟩
  · rw [h0] at hcc
    simp at hcc
  · rw [heq] at hcc
    rcases upload_calls_mem oracle n f.path cc (refOf tr f.path) c hcc
      with h1 | ⟨fid2, hpl, h1⟩ | ⟨rr, fid2, hpl, h1⟩
    · rw [hcall] at h1
      simp at h1
    · rw [hcall] at h1
      simp at h1
    · rw [hcall] at h1
      obtain ⟨hq, -⟩ := RemoteCall.updatePlug.inj h1
      rw [hpl, hq]

theorem processFile_create_absent (oracle : Oracle) (tr : Tracker) (n : Nat)
    (f : FsFile) :
    ∀ call ∈ (processFile oracle tr n f).2.2.2, ∀ q fid,
      call = RemoteCall.createPlug q fid →
        q = f.path ∧ refOf tr f.path = none := by
  intro c hcc q fid hcall
  rcases processFile_calls_eq oracle tr n f with h0 | ⟨cc, hcon, heq⟩
  · rw [h0] at hcc
    simp at hcc
  · rw [heq] at hcc
    rcases upload_calls_mem oracle n f.path cc (refOf tr f.path) c hcc
      with h1 | ⟨fid2, hpl, h1⟩ | ⟨rr, fid2, hpl, h1⟩
    · rw [hcall] at h1
      simp at h1
    · rw [hcall] at h1
      obtain ⟨hq, -⟩ := RemoteCall.createPlug.inj h1
      exact ⟨hq, hpl⟩
    · rw [hcall] at h1
      simp at h1

theorem processFile_sync_records (oracle : Oracle) (tr : Tracker) (n : Nat)
    (f : FsFile) (tr' : Tracker) (n' : Nat) (cs : List RemoteCall)
    (h : processFile oracle tr n f = (.ok, tr', n', cs)) (hcs : cs ≠ []) :
    ∃ pid, refOf tr' f.path = some pid := by
  rcases processFile_ok_elim oracle tr n f tr' n' cs h with
    ⟨-, -, hcs0, -⟩ | ⟨m, c, pid, -, -, -, -, htr⟩
  · exact absurd hcs0 hcs
  · subst htr
    exact ⟨pid, by simp [refOf, trLookup_trInsert_self]⟩

theorem runFiles_refOf_mono (oracle : Oracle) (fs : List FsFile)
    (tr : Tracker) (n : Nat) (p : String) (r : String)
    (h : refOf tr p = some r) :
    ∃ r2, refOf (runFiles oracle fs tr n).2.1 p = some r2 := by
  induction fs generalizing tr n r with
  | nil => exact ⟨r, by simpa [runFiles] using h⟩
  | cons f rest ih =>
      rcases hpf : processFile oracle tr n f with ⟨rp, trp, np, csp⟩
      have hstep := processFile_refOf_mono oracle tr n f p r h
      rw [hpf] at hstep
      obtain ⟨r2, hr2⟩ := hstep
      rcases rp with _ | e | _
      · rcases hr : runFiles oracle rest trp np with ⟨r3, tr3, n3, cs3⟩
        simp only [runFiles, hpf, hr]
        have := ih trp np r2 hr2
        rw [hr] at this
        exact this
      · simp only [runFiles, hpf]
        exact ⟨r2, hr2⟩
      · simp only [runFiles, hpf]
        exact ⟨r2, hr2⟩

theorem runFiles_refOf_echo (oracle : Oracle) (fs : List FsFile)
    (tr : Tracker) (n : Nat) (p : String) (r : String)
    (hecho : EchoesPut oracle) (h : refOf tr p = some r) :
    refOf (runFiles oracle fs tr n).2.1 p = some r := by
  induction fs generalizing tr n with
  | nil => simpa [runFiles] using h
  | cons f rest ih =>
      rcases hpf : processFile oracle tr n f with ⟨rp, trp, np, csp⟩
      have hstep := processFile_refOf_echo oracle tr n f p r hecho h
      rw [hpf] at hstep
      rcases rp with _ | e | _
      · rcases hr : runFiles oracle rest trp np with ⟨r3, tr3, n3, cs3⟩
        simp only [runFiles, hpf, hr]
        have := ih trp np hstep
        rw [hr] at this
        exact this
      · simp only [runFiles, hpf]
        exact hstep
      · simp only [runFiles, hpf]
        exact hstep

theorem runFiles_no_create (oracle : Oracle) (fs : List FsFile)
    (tr : Tracker) (n : Nat) (p : String) (r : String)
    (h : refOf tr p = some r) :
    ∀ call ∈ (runFiles oracle fs tr n).2.2.2, isCreateFor p call = false := by
  induction fs generalizing tr n r with
  | nil =>
      intro call hc
      simp [runFiles] at hc
  | cons f rest ih =>
      rcases hpf : processFile oracle tr n f with ⟨rp, trp, np, csp⟩
      have hhead : ∀ call ∈ csp, isCreateFor p call = false := by
        have := processFile_no_create oracle tr n f p r h
        rw [hpf] at this
        exact this
      have hstep := processFile_refOf_mono oracle tr n f p r h
      rw [hpf] at hstep
      obtain ⟨r2, hr2⟩ := hstep
      rcases rp with _ | e | _
      · rcases hr : runFiles oracle rest trp np with ⟨r3, tr3, n3, cs3⟩
        simp only [runFiles, hpf, hr]
        intro call hc
        rcases List.mem_append.mp hc with hm1 | hm1
        · exact hhead call hm1
        · have := ih trp np r2 hr2 call
          rw [hr] at this
          exact this hm1
      · simp only [runFiles, hpf]
        exact hhead
      · simp only [runFiles, hpf]
        exact hhead

theorem trInsert_InvSome (tr : Tracker) (p : String) (i : FileInfo)
    (h : InvSome tr) (hi : i.plug_id.isSome) : InvSome (trInsert tr p i) := by
  intro q j hj
  rw [trLookup_trInsert] at hj
  by_cases hpq : p = q
  · rw [if_pos hpq] at hj
    rw [← Option.some.inj hj]
    exact hi
  · rw [if_neg hpq] at hj
    exact h q j hj

theorem processFile_InvSome (oracle : Oracle) (tr : Tracker) (n : Nat)
    (f : FsFile) (h : InvSome tr) :
    InvSome (processFile oracle tr n f).2.1 := by
  rcases hpf : processFile oracle tr n f with ⟨rp, trp, np, csp⟩
  simp only
  by_cases hok : rp = CycleResult.ok
  · subst hok
    rcases processFile_ok_elim oracle tr n f trp np csp hpf with
      ⟨htr, -, -, -⟩ | ⟨m, c, pid, -, -, -, -, htr⟩
    · subst htr
      exact h
    · subst htr
      exact trInsert_InvSome tr f.path _ h (by simp)
  · rw [processFile_not_ok_tracker oracle tr n f rp trp np csp hpf hok]
    exact h

theorem runFiles_InvSome (oracle : Oracle) (fs : List FsFile)
    (tr : Tracker) (n : Nat) (h : InvSome tr) :
    InvSome (runFiles oracle fs tr n).2.1 := by
  induction fs generalizing tr n with
  | nil => simpa [runFiles] using h
  | cons f rest ih =>
      rcases hpf : processFile oracle tr n f with ⟨rp, trp, np, csp⟩
      have hstep := processFile_InvSome oracle tr n f h
      rw [hpf] at hstep
      rcases rp with _ | e | _
      · rcases hr : runFiles oracle rest trp np with ⟨r3, tr3, n3, cs3⟩
        simp only [runFiles, hpf, hr]
        have := ih trp np hstep
        rw [hr] at this
        exact this
      · simp only [runFiles, hpf]
        exact hstep
      · simp only [runFiles, hpf]
        exact hstep

theorem cycle_refOf_mono (oracle : Oracle)
    (inp : Except SyncError (List FsFile)) (tr : Tracker) (n : Nat)
    (p r : String) (h : refOf tr p = some r) :
    ∃ r2, refOf (upload_modified_files oracle inp tr n).2.1 p = some r2 := by
  rcases inp with e | files
  · exact ⟨r, h⟩
  · exact runFiles_refOf_mono oracle files tr n p r h

theorem cycle_refOf_echo (oracle : Oracle)
    (inp : Except SyncError (List FsFile)) (tr : Tracker) (n : Nat)
    (p r : String) (hecho : EchoesPut oracle) (h : refOf tr p = some r) :
    refOf (upload_modified_files oracle inp tr n).2.1 p = some r := by
  rcases inp with e | files
  · exact h
  · exact runFiles_refOf_echo oracle files tr n p r hecho h

theorem cycle_no_create (oracle : Oracle)
    (inp : Except SyncError (List FsFile)) (tr : Tracker) (n : Nat)
    (p r : String) (h : refOf tr p = some r) :
    ∀ call ∈ (upload_modified_files oracle inp tr n).2.2.2,
      isCreateFor p call = false := by
  rcases inp with e | files
  · intro call hc
    simp [upload_modified_files] at hc
  · exact runFiles_no_create oracle files tr n p r h

theorem cycle_InvSome (oracle : Oracle)
    (inp : Except SyncError (List FsFile)) (tr : Tracker) (n : Nat)
    (h : InvSome tr) :
    InvSome (upload_modified_files oracle inp tr n).2.1 := by
  rcases inp with e | files
  · exact h
  · exact runFiles_InvSome oracle files tr n h

theorem runCycles_refOf_mono (oracle : Oracle)
    (inps : List (Except SyncError (List FsFile))) (tr : Tracker) (n : Nat)
    (p r : String) (h : refOf tr p = some r) :
    ∃ r2, refOf (runCycles oracle inps tr n).1 p = some r2 := by
  induction inps generalizing tr n r with
  | nil => exact ⟨r, h⟩
  | cons inp rest ih =>
      rcases hc : upload_modified_files oracle inp tr n with ⟨rc, tr2, n2, cs⟩
      have hstep := cycle_refOf_mono oracle inp tr n p r h
      rw [hc] at hstep
      obtain ⟨r2, hr2⟩ := hstep
      rcases rc with _ | e | _
      · rcases hrest : runCycles oracle rest tr2 n2 with ⟨tr3, n3, cs2, rs⟩
        simp only [runCycles, hc, hrest]
        have := ih tr2 n2 r2 hr2
        rw [hrest] at this
        exact this
      · rcases hrest : runCycles oracle rest tr2 n2 with ⟨tr3, n3, cs2, rs⟩
        simp only [runCycles, hc, hrest]
        have := ih tr2 n2 r2 hr2
        rw [hrest] at this
        exact this
      · simp only [runCycles, hc]
        exact ⟨r2, hr2⟩

theorem runCycles_refOf_echo (oracle : Oracle)
    (inps : List (Except SyncError (List FsFile))) (tr : Tracker) (n : Nat)
    (p r : String) (hecho : EchoesPut oracle) (h : refOf tr p = some r) :
    refOf (runCycles oracle inps tr n).1 p = some r := by
  induction inps generalizing tr n with
  | nil => exact h
  | cons inp rest ih =>
      rcases hc : upload_modified_files oracle inp tr n with ⟨rc, tr2, n2, cs⟩
      have hstep := cycle_refOf_echo oracle inp tr n p r hecho h
      rw [hc] at hstep
      rcases rc with _ | e | _
      · rcases hrest : runCycles oracle rest tr2 n2 with ⟨tr3, n3, cs2, rs⟩
        simp only [runCycles, hc, hrest]
        have := ih tr2 n2 hstep
        rw [hrest] at this
        exact this
      · rcases hrest : runCycles oracle rest tr2 n2 with ⟨tr3, n3, cs2, rs⟩
        simp only [runCycles, hc, hrest]
        have := ih tr2 n2 hstep
        rw [hrest] at this
        exact this
      · simp only [runCycles, hc]
        exact hstep

theorem runCycles_no_create (oracle : Oracle)
    (inps : List (Except SyncError (List FsFile))) (tr : Tracker) (n : Nat)
    (p r : String) (h : refOf tr p = some r) :
    ∀ call ∈ (runCycles oracle inps tr n).2.2.1,
      isCreateFor p call = false := by
  induction inps generalizing tr n r with
  | nil =>
      intro call hc
      simp [runCycles] at hc
  | cons inp rest ih =>
      rcases hc : upload_modified_files oracle inp tr n with ⟨rc, tr2, n2, cs⟩
      have hhead : ∀ call ∈ cs, isCreateFor p call = false := by
        have := cycle_no_create oracle inp tr n p r h
        rw [hc] at this
        exact this
      have hstep := cycle_refOf_mono oracle inp tr n p r h
      rw [hc] at hstep
      obtain ⟨r2, hr2⟩ := hstep
      rcases rc with _ | e | _
      · rcases hrest : runCycles oracle rest tr2 n2 with ⟨tr3, n3, cs2, rs⟩
        simp only [runCycles, hc, hrest]
        intro call hcc
        rcases List.mem_append.mp hcc with hm1 | hm1
        · exact hhead call hm1
        · have := ih tr2 n2 r2 hr2 call
          rw [hrest] at this
          exact this hm1
      · rcases hrest : runCycles oracle rest tr2 n2 with ⟨tr3, n3, cs2, rs⟩
        simp only [runCycles, hc, hrest]
        intro call hcc
        rcases List.mem_append.mp hcc with hm1 | hm1
        · exact hhead call hm1
        · have := ih tr2 n2 r2 hr2 call
          rw [hrest] at this
          exact this hm1
      · simp only [runCycles, hc]
        exact hhead

theorem runCycles_InvSome (oracle : Oracle)
    (inps : List (Except SyncError (List FsFile))) (tr : Tracker) (n : Nat)
    (h : InvSome tr) : InvSome (runCycles oracle inps tr n).1 := by
  induction inps generalizing tr n with
  | nil => exact h
  | cons inp rest ih =>
      rcases hc : upload_modified_files oracle inp tr n with ⟨rc, tr2, n2, cs⟩
      have hstep := cycle_InvSome oracle inp tr n h
      rw [hc] at hstep
      rcases rc with _ | e | _
      · rcases hrest : runCycles oracle rest tr2 n2 with ⟨tr3, n3, cs2, rs⟩
        simp only [runCycles, hc, hrest]
        have := ih tr2 n2 hstep
        rw [hrest] at this
        exact this
      · rcases hrest : runCycles oracle rest tr2 n2 with ⟨tr3, n3, cs2, rs⟩
        simp only [runCycles, hc, hrest]
        have := ih tr2 n2 hstep
        rw [hrest] at this
        exact this
      · simp only [runCycles, hc]
        exact hstep

theorem runFiles_dirty_calls (oracle : Oracle) (fs : List FsFile)
    (tr : Tracker) (n : Nat) (tr1 : Tracker) (n1 : Nat)
    (cs : List RemoteCall) (f : FsFile) (m : Nat) (hm : f.meta = some m)
    (h : runFiles oracle fs tr n = (.ok, tr1, n1, cs))
    (hnd : (fs.map FsFile.path).Nodup) (hf : f ∈ fs)
    (hd : isDirty tr f.path m = true) :
    ∃ call ∈ cs, namesPath f.path call = true := by
  revert h hnd hf hd
  induction fs generalizing tr n cs with
  | nil =>
      intro h hnd hf hd
      simp at hf
  | cons g rest ih =>
      intro h hnd hf hd
      have hnd1 : g.path ∉ rest.map FsFile.path := by
        rw [List.map_cons, List.nodup_cons] at hnd
        exact hnd.1
      have hnd2 : (rest.map FsFile.path).Nodup := by
        rw [List.map_cons, List.nodup_cons] at hnd
        exact hnd.2
      rcases hpf : processFile oracle tr n g with ⟨rp, trp, np, csp⟩
      rcases rp with _ | e | _
      · rcases hr : runFiles oracle rest trp np with ⟨r3, tr3, n3, cs3⟩
        simp only [runFiles, hpf, hr, Prod.mk.injEq] at h
        obtain ⟨hr3, htr3, hn3, hcs⟩ := h
        subst hr3
        subst htr3
        subst hn3
        subst hcs
        rcases List.mem_cons.mp hf with hfg | hfr
        · subst hfg
          rcases processFile_ok_elim oracle tr n f trp np csp hpf with
            ⟨-, -, -, m2, hm2, hd2⟩ | ⟨m2, c, pid, hm2, -, -, hu, -⟩
          · rw [hm] at hm2
            rw [← Option.some.inj hm2] at hd2
            rw [hd] at hd2
            simp at hd2
          · obtain ⟨tl, htl⟩ := upload_calls_head oracle n f.path c (refOf tr f.path)
            rw [hu] at htl
            simp only at htl
            refine ⟨RemoteCall.uploadFile f.path c, ?_, by simp [namesPath]⟩
            apply List.mem_append_left
            rw [htl]
            exact List.mem_cons_self _ _
        · have htrp : trLookup trp f.path = trLookup tr f.path := by
            rcases processFile_ok_elim oracle tr n g trp np csp hpf with
              ⟨htr, -, -, -⟩ | ⟨m2, c, pid, -, -, -, -, htr⟩
            · rw [htr]
            · rw [htr]
              apply trLookup_trInsert_ne
              intro heq
              apply hnd1
              rw [heq]
              exact List.mem_map_of_mem FsFile.path hfr
          have hd2 : isDirty trp f.path m = true := by
            rw [isDirty_congr trp tr f.path m htrp]
            exact hd
          obtain ⟨call, hcm, hcn⟩ := ih trp np cs3 hr hnd2 hfr hd2
          exact ⟨call, List.mem_append_right csp hcm, hcn⟩
      · simp only [runFiles, hpf] at h
        simp at h
      · simp only [runFiles, hpf] at h
        simp at h

theorem runFiles_clean_no_calls (oracle : Oracle) (fs : List FsFile)
    (tr : Tracker) (n : Nat) (f : FsFile) (m : Nat) (hm : f.meta = some m)
    (hnd : (fs.map FsFile.path).Nodup) (hf : f ∈ fs)
    (hd : isDirty tr f.path m = false) :
    ∀ call ∈ (runFiles oracle fs tr n).2.2.2,
      namesPath f.path call = false := by
  revert hnd hf hd
  induction fs generalizing tr n with
  | nil =>
      intro hnd hf hd
      simp at hf
  | cons g rest ih =>
      intro hnd hf hd
      have hnd1 : g.path ∉ rest.map FsFile.path := by
        rw [List.map_cons, List.nodup_cons] at hnd
        exact hnd.1
      have hnd2 : (rest.map FsFile.path).Nodup := by
        rw [List.map_cons, List.nodup_cons] at hnd
        exact hnd.2
      rcases List.mem_cons.mp hf with hfg | hfr
      · subst hfg
        have hcl := processFile_clean oracle tr n f m hm hd
        rcases hr : runFiles oracle rest tr n with ⟨r3, tr3, n3, cs3⟩
        simp only [runFiles, hcl, hr]
        intro call hcc
        have := runFiles_calls_names oracle rest f.path tr n hnd1 call
        rw [hr] at this
        apply this
        simpa using hcc
      · rcases hpf : processFile oracle tr n g with ⟨rp, trp, np, csp⟩
        have hgf : f.path ≠ g.path := by
          intro heq
          apply hnd1
          rw [← heq]
          exact List.mem_map_of_mem FsFile.path hfr
        have hhead : ∀ c ∈ csp, namesPath f.path c = false := by
          have := processFile_calls_names oracle tr n g f.path hgf
          rw [hpf] at this
          exact this
        rcases rp with _ | e | _
        · have htrp : trLookup trp f.path = trLookup tr f.path := by
            rcases processFile_ok_elim oracle tr n g trp np csp hpf with
              ⟨htr, -, -, -⟩ | ⟨m2, c, pid, -, -, -, -, htr⟩
            · rw [htr]
            · rw [htr]
              apply trLookup_trInsert_ne
              intro heq
              apply hnd1
              rw [heq]
              exact List.mem_map_of_mem FsFile.path hfr
          have hd2 : isDirty trp f.path m = false := by
            rw [isDirty_congr trp tr f.path m htrp]
            exact hd
          rcases hr : runFiles oracle rest trp np with ⟨r3, tr3, n3, cs3⟩
          simp only [runFiles, hpf, hr]
          intro call hcc
          rcases List.mem_append.mp hcc with h1 | h1
          · exact hhead call h1
          · have := ih trp np hnd2 hfr hd2 call
            rw [hr] at this
            exact this h1
        · simp only [runFiles, hpf]
          exact hhead
        · simp only [runFiles, hpf]
          exact hhead

theorem is_source_file_iff (name : String) (types : List String) :
    is_source_file name types = true ↔
      ∃ ext, rustExtension name = some ext ∧ ext ∈ types := by
  simp only [is_source_file]
  rcases h : rustExtension name with _ | e
  · simp
  · simp [List.elem_iff]

theorem is_source_file_no_ext (name : String) (types : List String)
    (h : rustExtension name = none) : is_source_file name types = false := by
  simp [is_source_file, h]

mutual
theorem scanEntry_mem (types : List String) (dirPath : String) (e : Entry)
    (p : String) :
    p ∈ scanEntry types dirPath e ↔
      ∃ nm, (p, nm) ∈ filesEntry dirPath e ∧
        is_source_file nm types = true := by
  cases e with
  | file name =>
      by_cases h : is_source_file name types
      · simp only [scanEntry, if_pos h, filesEntry, List.mem_singleton,
          Prod.mk.injEq]
        constructor
        · intro hp
          exact ⟨name, ⟨hp, rfl⟩, h⟩
        · rintro ⟨nm, ⟨hp, -⟩, -⟩
          exact hp
      · simp only [scanEntry, if_neg h]
        simp only [filesEntry, List.mem_singleton, List.not_mem_nil,
          Prod.mk.injEq, false_iff, not_exists, not_and]
        rintro nm ⟨-, hnm⟩
        rw [hnm]
        simpa using h
  | dir name sub => exact scanList_mem types (dirPath ++ name ++ "/") sub p
theorem scanList_mem (types : List String) (dirPath : String) (l : EntryList)
    (p : String) :
    p ∈ scanList types dirPath l ↔
      ∃ nm, (p, nm) ∈ filesList dirPath l ∧
        is_source_file nm types = true := by
  cases l with
  | nil => simp [scanList, filesList]
  | cons e rest =>
      simp only [scanList, filesList, List.mem_append,
        scanEntry_mem types dirPath e p, scanList_mem types dirPath rest p]
      constructor
      · rintro (⟨nm, h1, h2⟩ | ⟨nm, h1, h2⟩)
        · exact ⟨nm, Or.inl h1, h2⟩
        · exact ⟨nm, Or.inr h1, h2⟩
      · rintro ⟨nm, h1 | h1, h2⟩
        · exact Or.inl ⟨nm, h1, h2⟩
        · exact Or.inr ⟨nm, h1, h2⟩
end

theorem scan_directory_mem (types : List String) (root : Entry) (p : String) :
    p ∈ scan_directory types root ↔
      ∃ nm, (p, nm) ∈ filesRoot root ∧ is_source_file nm types = true := by
  cases root with
  | file name => simp [scan_directory, filesRoot]
  | dir name sub => exact scanList_mem types (name ++ "/") sub p

theorem scan_roots_mem (types : List String) (roots : List Entry)
    (p : String) :
    p ∈ scan_roots types roots ↔
      ∃ root ∈ roots, ∃ nm, (p, nm) ∈ filesRoot root ∧
        is_source_file nm types = true := by
  simp only [scan_roots, List.mem_flatMap]
  constructor
  · rintro ⟨root, hr, hp⟩
    exact ⟨root, hr, (scan_directory_mem types root p).mp hp⟩
  · rintro ⟨root, hr, hex⟩
    exact ⟨root, hr, (scan_directory_mem types root p).mpr hex⟩

/-- C7: Extension filtering.  For every set of roots and accepted
extensions, the scan produces exactly the file paths reachable by
recursive descent from the roots whose extension component
(case-sensitive, without the leading dot) equals some accepted extension;
concretely, a directory containing `a.py`, `b.txt`, `c.py` with accepted
extensions `{"py"}` yields exactly `{a.py, c.py}`. -/
theorem claim_C7_extension_filtering :
    (∀ (types : List String) (roots : List Entry) (p : String),
      p ∈ scan_roots types roots ↔
        ∃ root ∈ roots, ∃ nm, (p, nm) ∈ filesRoot root ∧
          ∃ ext, rustExtension nm = some ext ∧ ext ∈ types) ∧
    scan_directory ["py"]
      (.dir "d" (.cons (.file "a.py") (.cons (.file "b.txt")
        (.cons (.file "c.py") .nil)))) = ["d/a.py", "d/c.py"] := by
  constructor
  · intro types roots p
    rw [scan_roots_mem]
    constructor
    · rintro ⟨root, hr, nm, h1, h2⟩
      exact ⟨root, hr, nm, h1, (is_source_file_iff nm types).mp h2⟩
    · rintro ⟨root, hr, nm, h1, h2⟩
      exact ⟨root, hr, nm, h1, (is_source_file_iff nm types).mpr h2⟩
  · rfl

/-- C9: a scanned path always stems from a file name with a present
extension component: a name with none at all (`Path::extension()` is
`None`, which is also how a non-UTF-8 extension reaches the filter after
`to_str`) is never accepted by `is_source_file` and never appears in a
scan result, even when the accepted-extensions set contains the empty
string. -/
theorem claim_C9_no_extension_excluded :
    (∀ name types, rustExtension name = none →
      is_source_file name types = false) ∧
    (∀ types root p, p ∈ scan_directory types root →
      ∃ nm, (p, nm) ∈ filesRoot root ∧ rustExtension nm ≠ none) ∧
    is_source_file "README" [""] = false := by
  refine ⟨fun name types h => is_source_file_no_ext name types h, ?_, rfl⟩
  intro types root p hp
  obtain ⟨nm, h1, h2⟩ := (scan_directory_mem types root p).mp hp
  refine ⟨nm, h1, ?_⟩
  intro hnone
  rw [is_source_file_no_ext nm types hnone] at h2
  simp at h2

/-- Witness for C9 at concrete inputs: `README` has no extension component
and is rejected even for the accepted set containing only the empty
string, and the scanned path `d/a.py` stems from a name with a present
extension. -/
theorem claim_C9_witness :
    is_source_file "README" [""] = false ∧
    ∃ nm, ("d/a.py", nm) ∈
        filesRoot (Entry.dir "d" (.cons (.file "a.py") .nil)) ∧
      rustExtension nm ≠ none :=
  ⟨claim_C9_no_extension_excluded.1 "README" [""] (by decide),
   claim_C9_no_extension_excluded.2.1 ["py"]
     (Entry.dir "d" (.cons (.file "a.py") .nil)) "d/a.py" (by decide)⟩

/-- C2: the claim fails on the code.  `upload_and_plug_file` panics (the
`unwrap()` on `["id"].as_str()`) when a response body lacks the `id`
field instead of returning a typed error, and it never inspects the HTTP
status: a 500 response without `id` panics, while a 404 response whose
body carries `id` is treated as full success. -/
theorem claim_C2_remote_error :
    upload_and_plug_file (fun _ _ => .ok 500 none) 0 "a.py" "body" none =
      (.panic, 1, [RemoteCall.uploadFile "a.py" "body"]) ∧
    upload_and_plug_file (fun _ _ => .ok 404 (some "z")) 0 "a.py" "body"
        none =
      (.ok "z", 2, [RemoteCall.uploadFile "a.py" "body",
        RemoteCall.createPlug "a.py" "z"]) := by
  exact ⟨rfl, rfl⟩

/-- C4: dirtiness correctness and idempotence.  A file is classified
dirty iff no tracker record exists for its path or the recorded
`last_modified` is strictly older than its current modification time; a
clean file's loop iteration makes no network calls and changes nothing;
in a cycle whose per-file loop completes, calls naming a scanned path are
issued iff that path was dirty (paths assumed pairwise distinct, as
produced by a scan of disjoint roots). -/
theorem claim_C4_dirtiness :
    (∀ (tr : Tracker) (p : String) (m : Nat),
      isDirty tr p m = true ↔
        (trLookup tr p = none ∨
          ∃ info, trLookup tr p = some info ∧ info.last_modified < m)) ∧
    (∀ (oracle : Oracle) (tr : Tracker) (n : Nat) (f : FsFile) (m : Nat),
      f.meta = some m → isDirty tr f.path m = false →
      processFile oracle tr n f = (.ok, tr, n, [])) ∧
    (∀ (oracle : Oracle) (fs : List FsFile) (tr : Tracker) (n : Nat)
      (f : FsFile) (m : Nat), f.meta = some m →
      (fs.map FsFile.path).Nodup → f ∈ fs →
      (isDirty tr f.path m = false →
        ∀ call ∈ (runFiles oracle fs tr n).2.2.2,
          namesPath f.path call = false) ∧
      (∀ tr1 n1 cs, runFiles oracle fs tr n = (.ok, tr1, n1, cs) →
        isDirty tr f.path m = true →
        ∃ call ∈ cs, namesPath f.path call = true)) := by
  refine ⟨?_, ?_, ?_⟩
  · intro tr p m
    simp only [isDirty]
    rcases h : trLookup tr p with _ | info
    · simp
    · simp [decide_eq_true_eq]
  · exact fun oracle tr n f m hm hd => processFile_clean oracle tr n f m hm hd
  · intro oracle fs tr n f m hm hnd hf
    constructor
    · exact fun hd => runFiles_clean_no_calls oracle fs tr n f m hm hnd hf hd
    · exact fun tr1 n1 cs h hd =>
        runFiles_dirty_calls oracle fs tr n tr1 n1 cs f m hm h hnd hf hd

/-- Witness for C4 at concrete inputs: a tracked file whose recorded time
equals its modification time is clean and its iteration is a no-op; in a
completed two-file cycle the dirty file gets a call naming it. -/
theorem claim_C4_witness :
    processFile (fun _ _ => .ok 200 (some "X"))
      [("a", ⟨5, some "R"⟩)] 7 ⟨"a", some 5, some "c"⟩ =
      (.ok, [("a", ⟨5, some "R"⟩)], 7, []) ∧
    ∃ call ∈ [RemoteCall.uploadFile "b" "cb",
        RemoteCall.createPlug "b" "X"],
      namesPath "b" call = true :=
  ⟨claim_C4_dirtiness.2.1 (fun _ _ => .ok 200 (some "X"))
      [("a", ⟨5, some "R"⟩)] 7 ⟨"a", some 5, some "c"⟩ 5 rfl (by decide),
   (claim_C4_dirtiness.2.2 (fun _ _ => .ok 200 (some "X"))
      [⟨"a", some 5, some "ca"⟩, ⟨"b", some 1, some "cb"⟩]
      [("a", ⟨5, some "R"⟩)] 0 ⟨"b", some 1, some "cb"⟩ 1 rfl
      (by decide) (by decide)).2
      [("a", ⟨5, some "R"⟩), ("b", ⟨1, some "X"⟩)] 2
      [RemoteCall.uploadFile "b" "cb", RemoteCall.createPlug "b" "X"]
      (by decide) (by decide)⟩

/-- C8: tracker update atomicity.  The record for a path changes only in
the iteration outcome `Ok` after both remote calls returned a body with
an `id`, and it is then written with the new modification time and the
returned plug id together; whenever the iteration fails (IO error,
remote error or panic) the tracker is left entirely unchanged. -/
theorem claim_C8_tracker_atomicity (oracle : Oracle) (tr : Tracker)
    (n : Nat) (f : FsFile) (r : CycleResult) (tr2 : Tracker) (n2 : Nat)
    (cs : List RemoteCall)
    (h : processFile oracle tr n f = (r, tr2, n2, cs)) :
    (r ≠ .ok → tr2 = tr) ∧
    (r = .ok → (tr2 = tr ∧ cs = []) ∨
      ∃ m c pid s1 fid s2,
        f.meta = some m ∧ f.content = some c ∧
        upload_and_plug_file oracle n f.path c (refOf tr f.path) =
          (.ok pid, n2, cs) ∧
        oracle n (RemoteCall.uploadFile f.path c) = .ok s1 (some fid) ∧
        oracle (n + 1) ((refOf tr f.path).elim
          (RemoteCall.createPlug f.path fid)
          (fun rr => RemoteCall.updatePlug rr fid)) = .ok s2 (some pid) ∧
        tr2 = trInsert tr f.path ⟨m, some pid⟩) := by
  constructor
  · exact fun hr => processFile_not_ok_tracker oracle tr n f r tr2 n2 cs h hr
  · intro hr
    subst hr
    rcases processFile_ok_elim oracle tr n f tr2 n2 cs h with
      ⟨htr, -, hcs, -⟩ | ⟨m, c, pid, hm, -, hc, hu, htr⟩
    · exact Or.inl ⟨htr, hcs⟩
    · rcases hpl : refOf tr f.path with _ | rr
      · rw [hpl] at hu
        obtain ⟨s1, fid, s2, ho1, ho2, -, -⟩ :=
          upload_ok_elim_none oracle n f.path c pid n2 cs hu
        exact Or.inr ⟨m, c, pid, s1, fid, s2, hm, hc, hu, ho1, ho2, htr⟩
      · rw [hpl] at hu
        obtain ⟨s1, fid, s2, ho1, ho2, -, -⟩ :=
          upload_ok_elim_some oracle n f.path c rr pid n2 cs hu
        exact Or.inr ⟨m, c, pid, s1, fid, s2, hm, hc, hu, ho1, ho2, htr⟩

/-- Witness for C8 at a concrete input: a failed upload leaves the
tracker unchanged. -/
theorem claim_C8_witness :
    ([("a", ⟨1, some "R"⟩)] : Tracker) = [("a", ⟨1, some "R"⟩)] :=
  (claim_C8_tracker_atomicity (fun _ _ => .sendErr)
      [("a", ⟨1, some "R"⟩)] 0 ⟨"a", some 2, some "c"⟩ (.err .remoteErr)
      [("a", ⟨1, some "R"⟩)] 1 [RemoteCall.uploadFile "a" "c"]
      (by decide)).1 (by decide)

/-- C10: tracker map invariant.  Every record ever present in the map has
a present `plug_id`: records are only inserted after a fully successful
sync, so starting from any map all of whose records carry a plug id (in
particular the empty map `main` starts with), the map reached by any run
of cycles again has this property. -/
theorem claim_C10_tracker_invariant (oracle : Oracle)
    (inps : List (Except SyncError (List FsFile))) (tr : Tracker) (n : Nat)
    (h : ∀ p i, trLookup tr p = some i → i.plug_id.isSome) :
    ∀ p i, trLookup (runCycles oracle inps tr n).1 p = some i →
      i.plug_id.isSome :=
  runCycles_InvSome oracle inps tr n h

/-- Witness for C10 at a concrete input: the record created by a
successful first sync carries a plug id. -/
theorem claim_C10_witness :
    (FileInfo.mk 1 (some "X")).plug_id.isSome :=
  claim_C10_tracker_invariant (fun _ _ => .ok 200 (some "X"))
    [.ok [⟨"a", some 1, some "c"⟩]] [] 0
    (fun p i hpi => by simp [trLookup] at hpi) "a" ⟨1, some "X"⟩
    (by decide)

/-- Counterexample to C1 as frozen: two dirty files, the first one's
upload fails with a remote error; the cycle aborts at that point: the
emitted call log contains only the first file's upload, no call names the
second file, and the second file gets no tracker record. -/
theorem claim_C1_counterexample :
    runFiles (fun n _ => if n = 0 then .sendErr else .ok 200 (some "X"))
      [⟨"a", some 1, some "ca"⟩, ⟨"b", some 1, some "cb"⟩] [] 0 =
      (.err .remoteErr, [], 1, [RemoteCall.uploadFile "a" "ca"]) ∧
    (∀ call ∈ (runFiles
        (fun n _ => if n = 0 then .sendErr else .ok 200 (some "X"))
        [⟨"a", some 1, some "ca"⟩, ⟨"b", some 1, some "cb"⟩] [] 0).2.2.2,
      namesPath "b" call = false) ∧
    trLookup (runFiles
        (fun n _ => if n = 0 then .sendErr else .ok 200 (some "X"))
        [⟨"a", some 1, some "ca"⟩, ⟨"b", some 1, some "cb"⟩] [] 0).2.1
      "b" = none := by
  refine ⟨rfl, by decide, rfl⟩

/-- C1 amended: a per-file remote failure aborts the cycle at that file.
Files earlier in scan order that synced successfully keep their tracker
updates (the final tracker is the one reached before the failing file),
the failing file's own record is unchanged, and no later file is
attempted in that cycle — the outcome does not depend on the remaining
list at all. -/
theorem claim_C1_amended (oracle : Oracle) (pre rest : List FsFile)
    (f : FsFile) (tr tr1 trf : Tracker) (n n1 n2 : Nat)
    (cs1 cs2 : List RemoteCall) (e : SyncError)
    (h1 : runFiles oracle pre tr n = (.ok, tr1, n1, cs1))
    (h2 : processFile oracle tr1 n1 f = (.err e, trf, n2, cs2)) :
    runFiles oracle (pre ++ f :: rest) tr n =
      (.err e, tr1, n2, cs1 ++ cs2) ∧ trf = tr1 := by
  have htr : trf = tr1 :=
    processFile_not_ok_tracker oracle tr1 n1 f _ trf n2 cs2 h2 (by simp)
  subst htr
  refine ⟨?_, rfl⟩
  have hcons : runFiles oracle (f :: rest) trf n1 = (.err e, trf, n2, cs2) := by
    simp only [runFiles, h2]
  exact runFiles_append_ok oracle pre (f :: rest) tr n trf n1 cs1 _ _ _ _
    h1 hcons

/-- Witness for the amended C1 at a concrete input: file `b` syncs, then
file `a` fails, file `c` is never reached; `b` keeps its record. -/
theorem claim_C1_amended_witness :
    runFiles
      (fun n _ => if n = 0 then .ok 200 (some "X")
        else if n = 1 then .ok 200 (some "P") else .sendErr)
      ([⟨"b", some 1, some "cb"⟩] ++ ⟨"a", some 1, some "ca"⟩ ::
        [⟨"c", some 1, some "cc"⟩]) [] 0 =
      (.err .remoteErr, [("b", ⟨1, some "P"⟩)], 3,
        [RemoteCall.uploadFile "b" "cb", RemoteCall.createPlug "b" "X"] ++
          [RemoteCall.uploadFile "a" "ca"]) :=
  (claim_C1_amended
    (fun n _ => if n = 0 then .ok 200 (some "X")
      else if n = 1 then .ok 200 (some "P") else .sendErr)
    [⟨"b", some 1, some "cb"⟩] [⟨"c", some 1, some "cc"⟩]
    ⟨"a", some 1, some "ca"⟩ [] [("b", ⟨1, some "P"⟩)]
    [("b", ⟨1, some "P"⟩)] 0 2 3
    [RemoteCall.uploadFile "b" "cb", RemoteCall.createPlug "b" "X"]
    [RemoteCall.uploadFile "a" "ca"] .remoteErr (by decide) (by decide)).1

/-- Counterexample to C6 as frozen: the first scanned file's metadata
read fails (the file vanished); instead of skipping it and continuing,
the cycle aborts with an IO error: no call at all is made (the dirty
second file is not attempted) and no tracker record is written. -/
theorem claim_C6_counterexample :
    runFiles (fun _ _ => .ok 200 (some "X"))
      [⟨"gone", none, none⟩, ⟨"b", some 1, some "cb"⟩] [] 0 =
      (.err .ioErr, [], 0, []) ∧
    trLookup (runFiles (fun _ _ => .ok 200 (some "X"))
      [⟨"gone", none, none⟩, ⟨"b", some 1, some "cb"⟩] [] 0).2.1 "b" =
      none := by
  exact ⟨rfl, rfl⟩

/-- C6 amended: a file whose metadata or content can no longer be read
when the orchestrator reaches it aborts the whole cycle with an IO error:
the vanished file gets no calls and no tracker update, earlier files keep
their updates, and the remaining files are not attempted (the outcome
does not depend on them). -/
theorem claim_C6_amended (oracle : Oracle) (pre rest : List FsFile)
    (f : FsFile) (tr tr1 : Tracker) (n n1 : Nat) (cs1 : List RemoteCall)
    (h1 : runFiles oracle pre tr n = (.ok, tr1, n1, cs1)) :
    (f.meta = none →
      runFiles oracle (pre ++ f :: rest) tr n =
        (.err .ioErr, tr1, n1, cs1)) ∧
    (∀ m, f.meta = some m → isDirty tr1 f.path m = true →
      f.content = none →
      runFiles oracle (pre ++ f :: rest) tr n =
        (.err .ioErr, tr1, n1, cs1)) := by
  constructor
  · intro hmeta
    have hstep : processFile oracle tr1 n1 f = (.err .ioErr, tr1, n1, []) := by
      simp [processFile, hmeta]
    have hcons : runFiles oracle (f :: rest) tr1 n1 =
        (.err .ioErr, tr1, n1, []) := by
      simp only [runFiles, hstep]
    have := runFiles_append_ok oracle pre (f :: rest) tr n tr1 n1 cs1 _ _ _ _
      h1 hcons
    simpa using this
  · intro m hmeta hdirty hcontent
    have hstep : processFile oracle tr1 n1 f = (.err .ioErr, tr1, n1, []) := by
      simp [processFile, hmeta, hdirty, hcontent]
    have hcons : runFiles oracle (f :: rest) tr1 n1 =
        (.err .ioErr, tr1, n1, []) := by
      simp only [runFiles, hstep]
    have := runFiles_append_ok oracle pre (f :: rest) tr n tr1 n1 cs1 _ _ _ _
      h1 hcons
    simpa using this

/-- Witness for the amended C6 at a concrete input: after `b` syncs, a
vanished file aborts the cycle and the later file `c` is not attempted. -/
theorem claim_C6_amended_witness :
    runFiles (fun _ _ => .ok 200 (some "X"))
      ([⟨"b", some 1, some "cb"⟩] ++ ⟨"gone", none, none⟩ ::
        [⟨"c", some 1, some "cc"⟩]) [] 0 =
      (.err .ioErr, [("b", ⟨1, some "X"⟩)], 2,
        [RemoteCall.uploadFile "b" "cb", RemoteCall.createPlug "b" "X"]) :=
  (claim_C6_amended (fun _ _ => .ok 200 (some "X"))
    [⟨"b", some 1, some "cb"⟩] [⟨"c", some 1, some "cc"⟩]
    ⟨"gone", none, none⟩ [] [("b", ⟨1, some "X"⟩)] 0 2
    [RemoteCall.uploadFile "b" "cb", RemoteCall.createPlug "b" "X"]
    (by decide)).1 rfl

/-- Counterexample to C5 as frozen: a cycle whose scan step succeeded and
whose only failure is a single file's remote error returns `Err`, so the
scheduler's next wait is the short 10-second interval, not the long
60-second interval the claim requires for a cycle with only per-file
failures. -/
theorem claim_C5_counterexample :
    upload_modified_files (fun _ _ => .sendErr)
      (.ok [⟨"a", some 1, some "c"⟩]) [] 0 =
      (.err .remoteErr, [], 1, [RemoteCall.uploadFile "a" "c"]) ∧
    sleepAfterCycle (upload_modified_files (fun _ _ => .sendErr)
      (.ok [⟨"a", some 1, some "c"⟩]) [] 0).1 = some 10 ∧
    sleepAfterCycle (upload_modified_files (fun _ _ => .sendErr)
      (.ok [⟨"a", some 1, some "c"⟩]) [] 0).1 ≠ some 60 := by
  exact ⟨rfl, rfl, by decide⟩

/-- C5 amended: after every non-panicking cycle the scheduler sleeps and
loops again: 60 seconds exactly when the cycle returned `Ok`, 10 seconds
exactly when it returned any `Err` — including a scan-step failure, which
is forwarded as the cycle's error, and equally any per-file failure,
since those abort the cycle with `Err`. -/
theorem claim_C5_amended (oracle : Oracle)
    (inp : Except SyncError (List FsFile)) (tr : Tracker) (n : Nat) :
    ((upload_modified_files oracle inp tr n).1 = .ok →
      sleepAfterCycle (upload_modified_files oracle inp tr n).1 =
        some 60) ∧
    (∀ e, (upload_modified_files oracle inp tr n).1 = .err e →
      sleepAfterCycle (upload_modified_files oracle inp tr n).1 =
        some 10) ∧
    (∀ e, inp = .error e →
      (upload_modified_files oracle inp tr n).1 = .err e) := by
  refine ⟨?_, ?_, ?_⟩
  · intro h
    rw [h]
    rfl
  · intro e h
    rw [h]
    rfl
  · intro e h
    rw [h]
    rfl

/-- Witness for the amended C5 at concrete inputs: a failed scan leads to
the 10-second sleep, a completed cycle to the 60-second sleep. -/
theorem claim_C5_amended_witness :
    sleepAfterCycle (upload_modified_files (fun _ _ => .ok 200 (some "X"))
      (.error .scanErr) [] 0).1 = some 10 ∧
    sleepAfterCycle (upload_modified_files (fun _ _ => .ok 200 (some "X"))
      (.ok [⟨"a", some 1, some "c"⟩]) [] 0).1 = some 60 :=
  ⟨(claim_C5_amended (fun _ _ => .ok 200 (some "X")) (.error .scanErr)
      [] 0).2.1 .scanErr rfl,
   (claim_C5_amended (fun _ _ => .ok 200 (some "X"))
      (.ok [⟨"a", some 1, some "c"⟩]) [] 0).1 rfl⟩

/-- Counterexample to C3 as frozen: for a path that is dirty in two
consecutive cycles, when the first cycle's plug-create fails after the
content upload succeeded, no record is written, so the second cycle
issues a second create for the same path: two `createPlug` calls occur,
not exactly one. -/
theorem claim_C3_counterexample :
    ((runCycles
        (fun n _ => if n = 0 then .ok 200 (some "f1")
          else if n = 1 then .sendErr
          else if n = 2 then .ok 200 (some "f2")
          else .ok 200 (some "p1"))
        [.ok [⟨"a", some 1, some "x"⟩], .ok [⟨"a", some 2, some "y"⟩]]
        [] 0).2.2.1.filter (isCreateFor "a")).length = 2 ∧
    ((runCycles
        (fun n _ => if n = 0 then .ok 200 (some "f1")
          else if n = 1 then .sendErr
          else if n = 2 then .ok 200 (some "f2")
          else .ok 200 (some "p1"))
        [.ok [⟨"a", some 1, some "x"⟩], .ok [⟨"a", some 2, some "y"⟩]]
        [] 0).2.2.1.filter (isCreateFor "a")).length ≠ 1 ∧
    (runCycles
        (fun n _ => if n = 0 then .ok 200 (some "f1")
          else if n = 1 then .sendErr
          else if n = 2 then .ok 200 (some "f2")
          else .ok 200 (some "p1"))
        [.ok [⟨"a", some 1, some "x"⟩], .ok [⟨"a", some 2, some "y"⟩]]
        [] 0).2.2.2 = [.err .remoteErr, .ok] := by
  refine ⟨by decide, by decide, by decide⟩

/-- C3 amended: create-once holds in the following mechanism form.  A
create is issued for a path exactly while the tracker records no
`plug_id` for it (so a failed create is retried as another create in a
later cycle, and more than one create call can occur for a path); an
update issued while processing a path always targets the currently
recorded ref; a successful sync that made calls records a plug id; once a
plug id is recorded, no later create for that path occurs in any
continuation of the run; and if the server's PUT responses echo the
targeted plug id, as the protocol specifies, the recorded ref is never
discarded or replaced for the rest of the run. -/
theorem claim_C3_create_once (oracle : Oracle) :
    (∀ (tr : Tracker) (n : Nat) (f : FsFile) (call : RemoteCall),
      call ∈ (processFile oracle tr n f).2.2.2 →
      ∀ q fid,
        (call = RemoteCall.createPlug q fid →
          q = f.path ∧ refOf tr f.path = none) ∧
        (call = RemoteCall.updatePlug q fid →
          refOf tr f.path = some q)) ∧
    (∀ (tr : Tracker) (n : Nat) (f : FsFile) (tr2 : Tracker) (n2 : Nat)
      (cs : List RemoteCall),
      processFile oracle tr n f = (.ok, tr2, n2, cs) → cs ≠ [] →
      ∃ pid, refOf tr2 f.path = some pid) ∧
    (∀ (inps : List (Except SyncError (List FsFile))) (tr : Tracker)
      (n : Nat) (p r : String), refOf tr p = some r →
      ∀ call ∈ (runCycles oracle inps tr n).2.2.1,
        isCreateFor p call = false) ∧
    (EchoesPut oracle →
      ∀ (inps : List (Except SyncError (List FsFile))) (tr : Tracker)
        (n : Nat) (p r : String), refOf tr p = some r →
        refOf (runCycles oracle inps tr n).1 p = some r) := by
  refine ⟨?_, ?_, ?_, ?_⟩
  · intro tr n f call hc q fid
    exact ⟨processFile_create_absent oracle tr n f call hc q fid,
      processFile_update_target oracle tr n f call hc q fid⟩
  · exact fun tr n f tr2 n2 cs h hcs =>
      processFile_sync_records oracle tr n f tr2 n2 cs h hcs
  · exact fun inps tr n p r h => runCycles_no_create oracle inps tr n p r h
  · exact fun hecho inps tr n p r h =>
      runCycles_refOf_echo oracle inps tr n p r hecho h

/-- Witness for the amended C3 at concrete inputs: with a recorded ref
`R`, a two-cycle run with echoing PUT responses issues no create for the
path and still records `R` at the end. -/
theorem claim_C3_create_once_witness :
    (∀ call ∈ (runCycles
        (fun _ c => match c with
          | RemoteCall.updatePlug q _ => .ok 200 (some q)
          | _ => .ok 200 (some "F"))
        [.ok [⟨"a", some 2, some "x"⟩], .ok [⟨"a", some 3, some "y"⟩]]
        [("a", ⟨1, some "R"⟩)] 0).2.2.1,
      isCreateFor "a" call = false) ∧
    refOf (runCycles
        (fun _ c => match c with
          | RemoteCall.updatePlug q _ => .ok 200 (some q)
          | _ => .ok 200 (some "F"))
        [.ok [⟨"a", some 2, some "x"⟩], .ok [⟨"a", some 3, some "y"⟩]]
        [("a", ⟨1, some "R"⟩)] 0).1 "a" = some "R" :=
  ⟨(claim_C3_create_once
      (fun _ c => match c with
        | RemoteCall.updatePlug q _ => .ok 200 (some q)
        | _ => .ok 200 (some "F"))).2.2.1
      [.ok [⟨"a", some 2, some "x"⟩], .ok [⟨"a", some 3, some "y"⟩]]
      [("a", ⟨1, some "R"⟩)] 0 "a" "R" rfl,
   (claim_C3_create_once
      (fun _ c => match c with
        | RemoteCall.updatePlug q _ => .ok 200 (some q)
        | _ => .ok 200 (some "F"))).2.2.2
      (by
        intro n q fid s i h
        simp only [CallResult.ok.injEq] at h
        exact Or.inr h.2.symm)
      [.ok [⟨"a", some 2, some "x"⟩], .ok [⟨"a", some 3, some "y"⟩]]
      [("a", ⟨1, some "R"⟩)] 0 "a" "R" rfl⟩
